import Mathlib

/-!
Verification of the AirTable client core (`src/airtable/client.py`):
record transcoding (`_process_records_for_at`, `_process_records_from_at`),
the special-value codec, batching/pagination loops (`get`, `write`), the
record matcher (`match_at_rec_id`) and the caching-header state change.

Python values that can appear in a record field are modelled by `JVal`;
floats are modelled by `PyFloat` (a rational for the finite case plus the
three non-finite values, which is all the client ever inspects: it only
classifies floats via `isinf` / `isnan` and compares them for equality).
Python dicts are modelled as insertion-ordered association lists with
unique keys; dict assignment is `rowInsert` (replace in place or append),
matching CPython semantics.
-/

/-- IEEE floats as the client observes them: a finite value (no rounding is
ever performed by the client, so a rational is enough), the two infinities
and NaN. -/
inductive PyFloat where
  | finite (q : ℚ)
  | inf
  | negInf
  | nan
  deriving DecidableEq

/-- JSON-serialisable Python values: None, bool, int, float, str, list, dict. -/
inductive JVal where
  | vnull
  | vbool (b : Bool)
  | vint (n : ℤ)
  | vfloat (f : PyFloat)
  | vstr (s : String)
  | varr (elems : List JVal)
  | vobj (entries : List (String × JVal))

/-- A Python dict (one record row): an insertion-ordered association list. -/
abbrev Row := List (String × JVal)

/-- Python dict lookup `d[k]` / `d.get(k)`: the value at key `k`, if present. -/
def lookupRow (r : Row) (k : String) : Option JVal :=
  match r with
  | [] => none
  | (k1, v) :: rest => if k1 = k then some v else lookupRow rest k

/-- Python dict assignment `d[k] = v`: replace the value in place if the key
exists (keeping its position), otherwise append the new entry. -/
def rowInsert (r : Row) (k : String) (v : JVal) : Row :=
  if r.any (fun kv => kv.1 = k) then
    r.map (fun kv => if kv.1 = k then (k, v) else kv)
  else r ++ [(k, v)]

/-- Python `d.update(u)`: assign every entry of `u` into `d` in order. -/
def rowUpdate (r u : Row) : Row :=
  u.foldl (fun acc kv => rowInsert acc kv.1 kv.2) r

/-- The keys of a dict. -/
def rowKeys (r : Row) : List String := r.map Prod.fst

/-- A genuine Python dict has no duplicate keys. -/
def nodupKeys (r : Row) : Bool := (rowKeys r).Nodup

/-- `isinstance(v, type(None))`. -/
def isNull : JVal → Bool
  | .vnull => true
  | _ => false

/-- Python truthiness of a JSON value (`bool(v)`); note that NaN is truthy
and that the empty string, empty containers, `0` and `0.0` are falsy. -/
def pyTruthy : JVal → Bool
  | .vnull => false
  | .vbool b => b
  | .vint n => !(n == 0)
  | .vfloat f => match f with
    | .finite q => !(q == 0)
    | _ => true
  | .vstr s => !(s == "")
  | .varr l => !l.isEmpty
  | .vobj l => !l.isEmpty

/-- Equality of a Python float and an integer (`f == n`): only a finite float
can equal an integer; NaN equals nothing. -/
def floatEqInt (f : PyFloat) (n : ℤ) : Bool :=
  match f with
  | .finite q => q == (n : ℚ)
  | _ => false

/-- Equality of two Python floats: NaN is unequal to everything, including
itself; each infinity equals itself. -/
def floatEqFloat (f g : PyFloat) : Bool :=
  match f, g with
  | .finite q, .finite r => q == r
  | .inf, .inf => true
  | .negInf, .negInf => true
  | _, _ => false

mutual
/-- Python `==` on JSON values.  Numeric values compare across
bool/int/float as in Python (`True == 1`, `1 == 1.0`), NaN is unequal to
itself, dicts compare by key set and value equality (CPython checks the
lengths and then every key of the left dict), lists compare elementwise. -/
def pyEq : JVal → JVal → Bool
  | .vnull, b => match b with | .vnull => true | _ => false
  | .vbool x, b => match b with
    | .vbool y => x == y
    | .vint n => (if x then (1 : ℤ) else 0) == n
    | .vfloat f => floatEqInt f (if x then 1 else 0)
    | _ => false
  | .vint n, b => match b with
    | .vbool y => n == (if y then (1 : ℤ) else 0)
    | .vint m => n == m
    | .vfloat f => floatEqInt f n
    | _ => false
  | .vfloat f, b => match b with
    | .vbool y => floatEqInt f (if y then 1 else 0)
    | .vint n => floatEqInt f n
    | .vfloat g => floatEqFloat f g
    | _ => false
  | .vstr s, b => match b with | .vstr t => s == t | _ => false
  | .varr l, b => match b with | .varr m => pyEqList l m | _ => false
  | .vobj l, b => match b with
    | .vobj m => l.length == m.length && pyEqObjItems l m
    | _ => false

/-- Elementwise Python `==` on two lists (of equal length). -/
def pyEqList : List JVal → List JVal → Bool
  | [], m => m.isEmpty
  | a :: l, m => match m with
    | b :: ms => pyEq a b && pyEqList l ms
    | [] => false

/-- Every entry of the left dict is present in the right dict with a
Python-equal value. -/
def pyEqObjItems : List (String × JVal) → Row → Bool
  | [], _ => true
  | (k, v) :: rest, m =>
    (match lookupRow m k with | some w => pyEq v w | none => false)
      && pyEqObjItems rest m
end

/-- Python `==` on two dicts. -/
def pyEqRow (r1 r2 : Row) : Bool := pyEq (.vobj r1) (.vobj r2)

/-- The reserved pseudo-key carrying a record identifier
(`self._at_rec_id = "at_record_id"`). -/
def atRecId : String := "at_record_id"

/-!
## Record Transcoder (`_process_records_for_at`, `_process_records_from_at`)
-/

/-- Step 2 of `_process_records_for_at` on one value: a float that is
`isinf` and positive becomes the tagged object with tag `"Infinity"`,
`isinf` and negative becomes `"-Infinity"`, `isnan` becomes `"NaN"`;
every other value (finite floats included) is left unchanged. -/
def encodeSpecialVal : JVal → JVal
  | .vfloat .inf => .vobj [("specialValue", .vstr "Infinity")]
  | .vfloat .negInf => .vobj [("specialValue", .vstr "-Infinity")]
  | .vfloat .nan => .vobj [("specialValue", .vstr "NaN")]
  | v => v

/-- Steps 1 and 2 of `_process_records_for_at` on one row: drop the
`None`-valued entries unless `keep_none`, then rewrite every non-finite
float in place via the special-value encoding. -/
def processRowForAt (keepNone : Bool) (row : Row) : Row :=
  (if keepNone then row else row.filter (fun kv => !isNull kv.2)).map
    (fun kv => (kv.1, encodeSpecialVal kv.2))

/-- One wire-format record as built by `_process_records_for_at`:
`{"fields": newrow}` in new mode, `{"id": ..., "fields": data}` otherwise. -/
inductive ATRec where
  | fieldsOnly (fields : Row)
  | withId (id : JVal) (fields : Row)

/-- The two result shapes of `_process_records_for_at`: a bare list in new
mode, the list wrapped in a top-level `{"records": ...}` dict otherwise. -/
inductive ATPayload where
  | newFormat (recs : List ATRec)
  | recordsWrapped (recs : List ATRec)

/-- Step 3 of `_process_records_for_at` on one row: wrap the processed row
as `{"fields": newrow}` when `new`; otherwise split out the
`at_record_id` entry as the record id (a `KeyError` when the processed row
has no such entry) and wrap as `{"id": ..., "fields": ...}`. -/
def atRecOfRow (keepNone isNew : Bool) (row : Row) : Except String ATRec :=
  let newrow := processRowForAt keepNone row
  if isNew then .ok (.fieldsOnly newrow)
  else
    match lookupRow newrow atRecId with
    | some idv => .ok (.withId idv (newrow.filter (fun kv => !(kv.1 = atRecId))))
    | none => .error "KeyError: at_record_id"

/-- `_process_records_for_at(records, keep_none, new)`: process the rows in
order (the first failing row aborts the whole call, as a raised `KeyError`
does) and wrap the output according to `new`. -/
def processRecordsForAt (records : List Row) (keepNone isNew : Bool) :
    Except String ATPayload :=
  (records.mapM (atRecOfRow keepNone isNew)).map
    (fun out => if isNew then .newFormat out else .recordsWrapped out)

/-- The decode branch of `_process_records_from_at` for one field value:
when the value is a dict whose `"specialValue"` entry is present and truthy,
the three recognised tags produce the corresponding non-finite float and an
unrecognised tag leaves the field unassigned (`none`, i.e. the field is
dropped from the output row); every other value passes through. -/
def decodeField (v : JVal) : Option JVal :=
  match v with
  | .vobj o =>
    match lookupRow o "specialValue" with
    | some sv =>
      if pyTruthy sv then
        if pyEq sv (.vstr "Infinity") then some (.vfloat .inf)
        else if pyEq sv (.vstr "-Infinity") then some (.vfloat .negInf)
        else if pyEq sv (.vstr "NaN") then some (.vfloat .nan)
        else none
      else some (.vobj o)
    | none => some (.vobj o)
  | v => some v

/-- The field loop of `_process_records_from_at` on one record: assign each
field of `row["fields"]` into the row under construction, dropping a field
exactly when the decode branch assigns nothing. -/
def decodeFold (base fs : Row) : Row :=
  fs.foldl
    (fun acc kv =>
      match decodeField kv.2 with
      | some w => rowInsert acc kv.1 w
      | none => acc)
    base

/-- `_process_records_from_at` on one wire record (a dict): start from
`{at_record_id: row["id"]}` when `keep_id` (a `KeyError` when `"id"` is
missing), then assign each field of `row["fields"]` in order through the
decode branch. -/
def fromAtRow (keepId : Bool) (row : Row) : Except String Row := do
  let base ←
    if keepId then
      match lookupRow row "id" with
      | some idv => Except.ok [(atRecId, idv)]
      | none => Except.error "KeyError: id"
    else Except.ok ([] : Row)
  let fs ←
    match lookupRow row "fields" with
    | some (.vobj fs) => Except.ok fs
    | some _ => Except.error "AttributeError: fields is not a dict"
    | none => Except.error "KeyError: fields"
  Except.ok (decodeFold base fs)

/-- `_process_records_from_at(records, keep_id)`. -/
def processRecordsFromAt (records : List Row) (keepId : Bool) :
    Except String (List Row) :=
  records.mapM (fromAtRow keepId)

/-- A wire record rendered back as the dict `_process_records_from_at`
receives. -/
def atRecToRow : ATRec → Row
  | .fieldsOnly fields => [("fields", .vobj fields)]
  | .withId idv fields => [("id", idv), ("fields", .vobj fields)]

/-- The record list carried by either payload shape. -/
def payloadRows : ATPayload → List Row
  | .newFormat recs => recs.map atRecToRow
  | .recordsWrapped recs => recs.map atRecToRow

/-- `fromWire(toWire(R, new=True, keep_none=False))`, decoding with
`keep_id = False` since new-mode wire records carry no `"id"` entry (the
default `keep_id = True` raises a `KeyError` on them). -/
def roundTrip (records : List Row) : Except String (List Row) := do
  let p ← processRecordsForAt records false true
  processRecordsFromAt (payloadRows p) false

/-!
## Batch Planner: chunking (`write`, `update`, `delete`)
-/

/-- `[data[i : i + n] for i in range(0, len(data), n)]`: Python
`range(0, L, n)` yields `i * n` for `i < ceil(L / n)`, and `data[i : i + n]`
is `(data.drop i).take n`. -/
def pyChunks {α : Type} (data : List α) (n : Nat) : List (List α) :=
  (List.range ((data.length + n - 1) / n)).map
    (fun i => (data.drop (i * n)).take n)

/-!
## Batch Planner: pagination (`get`)

One page response is the decoded JSON body of a `GET`: a status code, the
`"records"` array and the optional `"offset"` field.  The mock page source
is a function from the offset parameter sent (absent on the first request,
since `params` initially has no `"offset"` entry) to the response.
-/

/-- One page response: `r.status_code`, `json_object["records"]`,
`json_object.get("offset")`. -/
structure ATResp where
  status : Nat
  records : List JVal
  offset : Option JVal

/-- Result of the reading loop in `get`: the accumulated records together
with the trace of (offset parameter sent, response received) pairs, or a
raised `RuntimeError` on a non-200 status.  `outOfFuel` marks an unfinished
run (the Python loop would still be iterating). -/
inductive GetResult where
  | ok (records : List JVal) (trace : List (Option JVal × ATResp))
  | httpError (status : Nat)
  | outOfFuel

/-- The loop variable `offset` after `offset = json_object.get("offset")`:
the field's value, or `None` when the response omits the field. -/
def respOffVal (r : ATResp) : JVal :=
  match r.offset with
  | some v => v
  | none => .vnull

/-- `offset is True`: identity with the `True` singleton.  The loop
variable is initialised to that singleton, and a JSON `true` in a response
body decodes to the very same object, so the identity test holds exactly
for the boolean true value and for nothing else (`1 is True` is false). -/
def isPyTrue : JVal → Bool
  | .vbool b => b
  | _ => false

/-- The `"offset"` entry of `params` after the guarded
`if offset and offset is not True: params.update({"offset": offset})`:
the loop variable is written into `params` only when it is truthy and not
the `True` singleton; otherwise the entry keeps its previous value
(`prev`), which is absent on the first request. -/
def sentFor (off : JVal) (prev : Option JVal) : Option JVal :=
  if pyTruthy off && !isPyTrue off then some off else prev

/-- The `while offset:` loop of `get` over the state (loop variable
`offset`, current `"offset"` entry of `params`): test the loop variable's
truthiness at the top, update `params` behind the `is not True` guard,
issue the request with the current params entry, raise on a non-200
status, extend `records` with the page's records, and loop on the
response's offset field (`None` when absent).  One fuel unit is spent per
iteration; a page source that keeps answering with a JSON `true` offset
makes the Python loop re-fetch forever with an unchanged params entry,
which surfaces here as `outOfFuel`. -/
def getLoop (fetch : Option JVal → ATResp) :
    Nat → JVal → Option JVal → List JVal → List (Option JVal × ATResp) →
    GetResult
  | 0, _, _, _, _ => .outOfFuel
  | fuel + 1, off, prev, recs, tr =>
    if pyTruthy off = true then
      let sent := sentFor off prev
      let r := fetch sent
      if r.status = 200 then
        getLoop fetch fuel (respOffVal r) sent (recs ++ r.records)
          (tr ++ [(sent, r)])
      else .httpError r.status
    else .ok recs tr

/-- The reading loop of `get`: `offset = True` (the sentinel is the same
`True` singleton the identity guard tests), `params` without an `"offset"`
entry, no records accumulated. -/
def atGet (fetch : Option JVal → ATResp) (fuel : Nat) : GetResult :=
  getLoop fetch fuel (.vbool true) none [] []

/-- The successive-request invariant of a trace: every response was
produced by the fetcher from the offset parameter sent; after a response
whose offset field is truthy the loop fetches again, sending that offset —
unless it is the JSON `true` value, which the `is not True` guard keeps
out of `params`, so the previous offset parameter is re-sent unchanged;
the loop stops exactly after a response whose offset field is absent or
falsy. -/
def traceChained (fetch : Option JVal → ATResp) :
    List (Option JVal × ATResp) → Prop
  | [] => True
  | [(c, r)] => pyTruthy (respOffVal r) = false ∧ (fetch c).status = 200
  | (c, r) :: (c2, r2) :: rest =>
    pyTruthy (respOffVal r) = true
      ∧ c2 = (if isPyTrue (respOffVal r) then c else some (respOffVal r))
      ∧ (fetch c).status = 200
      ∧ traceChained fetch ((c2, r2) :: rest)

/-!
## Request Orchestrator: the chunked `write` loop

The HTTP collaborator is mocked as a function from (call number, chunk
posted) to a response; `write` posts one chunk per call, raises a
`RuntimeError` on the first non-200 status, and extends `records` with the
`"records"` array of each successful response.
-/

/-- One mocked HTTP response for a mutating call: the status code and the
`"records"` array of the body. -/
structure HResp where
  status : Nat
  records : List JVal

/-- The chunk loop of `write`: post each chunk in order, raise on the first
non-200 status (discarding the records accumulated so far), otherwise
accumulate the response records. -/
def writeLoop {β : Type} (post : Nat → List β → HResp) :
    List (List β) → Nat → List JVal → Except String (List JVal)
  | [], _, recs => .ok recs
  | chunk :: rest, i, recs =>
    let r := post i chunk
    if r.status = 200 then writeLoop post rest (i + 1) (recs ++ r.records)
    else .error "RuntimeError: Airtable did not return 200"

/-- `write` after the data has been brought to list form: chunk into
batches of 10 and run the chunk loop. -/
def atWrite {β : Type} (post : Nat → List β → HResp) (data : List β) :
    Except String (List JVal) :=
  writeLoop post (pyChunks data 10) 0 []

/-!
## Record Matcher (`match_at_rec_id`)

CPython iterates `for rec in updated` by an internal index that increases
by one per yielded element, while the zero-match branch removes the current
row from `updated`; the shrunken list then shifts under the unchanged
index, so the element directly after a removed one is never visited.  The
state below is exactly (list being iterated, internal index); one fuel unit
is spent per loop iteration, and `matchAtRecId` supplies more fuel than the
loop can consume, so `outOfFuel` is unreachable.
-/

/-- `d[key]`: a `KeyError` when the key is absent. -/
def getKey (r : Row) (k : String) : Except String JVal :=
  match lookupRow r k with
  | some v => .ok v
  | none => .error ("KeyError: " ++ k)

/-- `all(d[key] == rec[key] for key in keys)`: short-circuits on the first
unequal key; a missing key raises. -/
def pyAllEq (keys : List String) (d rec : Row) : Except String Bool :=
  match keys with
  | [] => .ok true
  | k :: ks => do
    let dv ← getKey d k
    let rv ← getKey rec k
    if pyEq dv rv then pyAllEq ks d rec else .ok false

/-- `list(filter(lambda d: all(d[key] == rec[key] for key in keys), data_w_id))`. -/
def matchFilter (keys : List String) (rec : Row) :
    List Row → Except String (List Row)
  | [] => .ok []
  | d :: ds => do
    let b ← pyAllEq keys d rec
    let rest ← matchFilter keys rec ds
    .ok (if b then d :: rest else rest)

/-- `{k: rec[k] for k in keys}`: the key-tuple recorded for a row with no
match; raises when `rec` lacks one of the keys. -/
def buildUid (keys : List String) (rec : Row) : Except String Row :=
  keys.foldlM (fun acc k => do
    let v ← getKey rec k
    Except.ok (rowInsert acc k v)) []

/-- `updated.remove(rec)` where `rec` is the element at position `idx`:
CPython removes the first element that is identical to or `==` the sought
value; identity can only hold at `idx` itself, so the first position
`j < idx` with a Python-equal row wins, else position `idx` is removed. -/
def removeCurrent : List Row → Nat → Row → List Row
  | [], _, _ => []
  | _ :: xs, 0, _ => xs
  | x :: xs, j + 1, rec =>
    if pyEqRow x rec then xs else x :: removeCurrent xs j rec

/-- The `for rec in updated` loop of `match_at_rec_id` over the state
(current list, internal iterator index, `missing_id`, `not_updated`):
filter `data_w_id` for rows agreeing on every key; more than one match
raises the duplicate `RuntimeError`; exactly one match assigns its
`at_record_id` onto the current row in place; no match records the
key-tuple, appends the row to `not_updated` and removes it from the list
being iterated. -/
def matchGo (dataWId : List Row) (keys : List String) :
    Nat → List Row → Nat → List Row → List Row →
    Except String (List Row × List Row × List Row)
  | 0, _, _, _, _ => .error "out of fuel"
  | fuel + 1, l, idx, missing, notUpd =>
    match l.drop idx with
    | [] => .ok (l, missing, notUpd)
    | rec :: _ =>
      match matchFilter keys rec dataWId with
      | .error e => .error e
      | .ok recIdList =>
        if recIdList.length = 0 then
          match buildUid keys rec with
          | .error e => .error e
          | .ok uid =>
            matchGo dataWId keys fuel (removeCurrent l idx rec) (idx + 1)
              (missing ++ [uid]) (notUpd ++ [rec])
        else if recIdList.length > 1 then
          .error "RuntimeError: duplicate records found"
        else
          match getKey (recIdList.headD []) atRecId with
          | .error e => .error e
          | .ok idv =>
            matchGo dataWId keys fuel (l.set idx (rowInsert rec atRecId idv))
              (idx + 1) missing notUpd

/-- `match_at_rec_id(data_wo_id, data_w_id, keys)`. -/
def matchAtRecId (dataWoId dataWId : List Row) (keys : List String) :
    Except String (List Row × List Row × List Row) :=
  matchGo dataWId keys (dataWoId.length + 1) dataWoId 0 [] []

/-!
## Client header state (`__init__`, `get` routing)
-/

/-- The client configuration state that the header logic touches:
`self.__headers`, `self.__cache_header` and `self._cache_token`. -/
structure ATClient where
  headers : Row
  cacheHeader : Row
  cacheToken : Option String

/-- `__init__`: the primary headers carry the bearer `apikey`; the cache
header dict is built unconditionally (value `None` when no token). -/
def initClient (apikey : String) (cacheToken : Option String) : ATClient :=
  { headers := [("Authorization", .vstr ("Bearer " ++ apikey)),
                ("Content-Type", .vstr "application/json")],
    cacheHeader := [("X-Mw-Bearer",
      match cacheToken with | some t => .vstr t | none => .vnull)],
    cacheToken := cacheToken }

/-- The header step of `get`: force `direct = True` when no cache token is
configured; `headers = self.__headers` aliases the client's own dict, so
`headers.update(self.__cache_header)` on the cache-routed path mutates the
client state, returned here as the new client. -/
def getHeaderPrep (c : ATClient) (direct : Bool) : ATClient × Row :=
  let direct1 := if c.cacheToken = none then true else direct
  if direct1 = false then
    let h := rowUpdate c.headers c.cacheHeader
    ({ c with headers := h }, h)
  else (c, c.headers)

/-- `write`, `update` and `delete` all send `headers=self.__headers`. -/
def mutationHeaders (c : ATClient) : Row := c.headers

/-!
## Predicates and concrete collaborators used by the statements
-/

/-- A scalar field value in the sense of the data model: not an array, not
an object (so in particular not an attachment); `None` counts as a scalar. -/
def isScalarVal : JVal → Bool
  | .varr _ => false
  | .vobj _ => false
  | _ => true

/-- A scalar field value that is not `None`. -/
def scalarNonNull : JVal → Bool
  | .vnull => false
  | v => isScalarVal v

/-- Two rows agree on every field apart from the reserved identifier
pseudo-key (NaN needs no special casing here: the model compares float
values structurally, which is exactly the is-NaN comparison on NaN). -/
def rowAgreesUpToId (r1 r2 : Row) : Prop :=
  ∀ k, k ≠ atRecId → lookupRow r1 k = lookupRow r2 k

/-- A mock page source: page 1 returns two records and an offset, page 2
returns one record and omits the offset field. -/
def twoPager : Option JVal → ATResp
  | none => { status := 200, records := [.vint 1, .vint 2], offset := some (.vstr "off1") }
  | some _ => { status := 200, records := [.vint 3], offset := none }

/-- A mock page source whose response carries an offset field that is
present but falsy (the empty string). -/
def emptyOffsetPager : Option JVal → ATResp :=
  fun _ => { status := 200, records := [.vint 7], offset := some (.vstr "") }

/-- A mock HTTP collaborator that succeeds on every chunk except the second
(call number 1), which fails with status 422. -/
def post422 : Nat → List Nat → HResp :=
  fun i _ => if i = 1 then { status := 422, records := [] } else { status := 200, records := [.vint 1] }


/-!
## Dictionary lemmas
-/

theorem mem_rowKeys_iff (r : Row) (k : String) :
    k ∈ rowKeys r ↔ ∃ kv ∈ r, kv.1 = k := by
  simp [rowKeys, List.mem_map]

theorem lookupRow_map_value (l : Row) (f : JVal → JVal) (k : String) :
    lookupRow (l.map (fun kv => (kv.1, f kv.2))) k = (lookupRow l k).map f := by
  induction l with
  | nil => rfl
  | cons kv rest ih =>
    by_cases h : kv.1 = k <;> simp [lookupRow, h, ih]

theorem lookupRow_eq_none_of_not_mem (l : Row) (k : String)
    (h : k ∉ rowKeys l) : lookupRow l k = none := by
  induction l with
  | nil => rfl
  | cons kv rest ih =>
    rw [rowKeys, List.map_cons, List.mem_cons, not_or] at h
    have h1 : kv.1 ≠ k := fun he => h.1 he.symm
    rw [lookupRow, if_neg h1]
    exact ih h.2

theorem lookupRow_filter_none (l : Row) (p : String × JVal → Bool) (k : String)
    (h : lookupRow l k = none) : lookupRow (l.filter p) k = none := by
  induction l with
  | nil => rfl
  | cons kv rest ih =>
    rw [lookupRow] at h
    by_cases hk : kv.1 = k
    · simp [hk] at h
    · rw [if_neg hk] at h
      rw [List.filter_cons]
      by_cases hp : p kv <;> simp [hp, lookupRow, hk, ih h]

theorem lookupRow_filter_value (l : Row) (q : JVal → Bool) (k : String)
    (hn : (rowKeys l).Nodup) :
    lookupRow (l.filter (fun kv => q kv.2)) k
      = match lookupRow l k with
        | some v => if q v then some v else none
        | none => none := by
  induction l with
  | nil => rfl
  | cons kv rest ih =>
    rw [rowKeys, List.map_cons, List.nodup_cons] at hn
    by_cases hk : kv.1 = k
    · have hrest : lookupRow rest k = none := by
        apply lookupRow_eq_none_of_not_mem
        rw [← hk]; exact hn.1
      rw [List.filter_cons]
      by_cases hq : q kv.2
      · simp [hq, lookupRow, hk]
      · simp only [hq, Bool.false_eq_true, if_false]
        simp [lookupRow, hk, hq, lookupRow_filter_none rest _ k hrest]
    · rw [List.filter_cons]
      by_cases hq : q kv.2 <;> simp [hq, lookupRow, hk, ih hn.2]

theorem rowKeys_append (l1 l2 : Row) :
    rowKeys (l1 ++ l2) = rowKeys l1 ++ rowKeys l2 := by
  simp [rowKeys]

theorem any_key_eq_false (r : Row) (k : String) (h : k ∉ rowKeys r) :
    r.any (fun kv => kv.1 = k) = false := by
  rw [List.any_eq_false]
  intro kv hkv
  simp only [decide_eq_true_eq]
  intro he
  exact h ((mem_rowKeys_iff r k).mpr ⟨kv, hkv, he⟩)

theorem rowInsert_fresh (r : Row) (k : String) (v : JVal)
    (h : k ∉ rowKeys r) : rowInsert r k v = r ++ [(k, v)] := by
  rw [rowInsert, any_key_eq_false r k h]
  simp

theorem lookupRow_append (r l2 : Row) (k : String) :
    lookupRow (r ++ l2) k
      = match lookupRow r k with
        | some v => some v
        | none => lookupRow l2 k := by
  induction r with
  | nil => rfl
  | cons kv rest ih =>
    by_cases hk : kv.1 = k <;> simp [lookupRow, hk, ih]

theorem lookupRow_replace_self (r : Row) (k : String) (v : JVal)
    (hany : r.any (fun kv => kv.1 = k) = true) :
    lookupRow (r.map (fun kv => if kv.1 = k then (k, v) else kv)) k = some v := by
  induction r with
  | nil => simp at hany
  | cons kv rest ih =>
    obtain ⟨k2, v2⟩ := kv
    by_cases hk : k2 = k
    · subst hk
      have hmap : ((k2, v2) :: rest).map (fun kv => if kv.1 = k2 then (k2, v) else kv)
          = (k2, v) :: rest.map (fun kv => if kv.1 = k2 then (k2, v) else kv) := by
        simp
      rw [hmap]
      simp [lookupRow]
    · have hrest : rest.any (fun kv => kv.1 = k) = true := by
        simpa [List.any_cons, hk] using hany
      have hmap : ((k2, v2) :: rest).map (fun kv => if kv.1 = k then (k, v) else kv)
          = (k2, v2) :: rest.map (fun kv => if kv.1 = k then (k, v) else kv) := by
        simp [hk]
      rw [hmap, lookupRow, if_neg hk]
      exact ih hrest

theorem lookupRow_replace_other (r : Row) (k : String) (v : JVal) (k1 : String)
    (h : k1 ≠ k) :
    lookupRow (r.map (fun kv => if kv.1 = k then (k, v) else kv)) k1
      = lookupRow r k1 := by
  induction r with
  | nil => rfl
  | cons kv rest ih =>
    obtain ⟨k2, v2⟩ := kv
    by_cases hk : k2 = k
    · have hmap : ((k2, v2) :: rest).map (fun kv => if kv.1 = k then (k, v) else kv)
          = (k, v) :: rest.map (fun kv => if kv.1 = k then (k, v) else kv) := by
        simp [hk]
      have hne : k ≠ k1 := fun he => h he.symm
      have hne2 : k2 ≠ k1 := by rw [hk]; exact hne
      rw [hmap, lookupRow, if_neg hne, lookupRow, if_neg hne2, ih]
    · have hmap : ((k2, v2) :: rest).map (fun kv => if kv.1 = k then (k, v) else kv)
          = (k2, v2) :: rest.map (fun kv => if kv.1 = k then (k, v) else kv) := by
        simp [hk]
      rw [hmap, lookupRow, lookupRow, ih]

theorem lookupRow_rowInsert_self (r : Row) (k : String) (v : JVal) :
    lookupRow (rowInsert r k v) k = some v := by
  rw [rowInsert]
  by_cases hany : r.any (fun kv => kv.1 = k) = true
  · rw [if_pos hany]
    exact lookupRow_replace_self r k v hany
  · rw [if_neg hany, lookupRow_append]
    have h : k ∉ rowKeys r := by
      intro hmem
      rcases (mem_rowKeys_iff r k).mp hmem with ⟨kv, hkv, he⟩
      exact hany (List.any_eq_true.mpr ⟨kv, hkv, by simp [he]⟩)
    rw [lookupRow_eq_none_of_not_mem r k h]
    simp [lookupRow]

theorem lookupRow_rowInsert_other (r : Row) (k k1 : String) (v : JVal)
    (h : k1 ≠ k) : lookupRow (rowInsert r k v) k1 = lookupRow r k1 := by
  rw [rowInsert]
  by_cases hany : r.any (fun kv => kv.1 = k) = true
  · rw [if_pos hany]
    exact lookupRow_replace_other r k v k1 h
  · rw [if_neg hany, lookupRow_append]
    cases hc : lookupRow r k1 with
    | some w => rfl
    | none =>
      have hne : k ≠ k1 := fun he => h he.symm
      simp [lookupRow, hne]

theorem rowKeys_rowInsert_mem (r : Row) (k : String) (v : JVal) (k1 : String)
    (h : k1 ∈ rowKeys (rowInsert r k v)) : k1 ∈ rowKeys r ∨ k1 = k := by
  rw [rowInsert] at h
  by_cases hany : r.any (fun kv => kv.1 = k) = true
  · rw [if_pos hany] at h
    rcases (mem_rowKeys_iff _ k1).mp h with ⟨kv2, hkv2, he⟩
    rcases List.mem_map.mp hkv2 with ⟨kv, hkv, hf⟩
    by_cases hk : kv.1 = k
    · right
      rw [if_pos hk] at hf
      rw [← hf] at he
      exact he.symm
    · left
      rw [if_neg hk] at hf
      exact (mem_rowKeys_iff r k1).mpr ⟨kv, hkv, by rw [hf]; exact he⟩
  · rw [if_neg hany, rowKeys_append] at h
    rcases List.mem_append.mp h with h1 | h1
    · exact Or.inl h1
    · right
      simpa [rowKeys] using h1

/-!
## Codec and transcoder lemmas
-/

theorem decodeField_encodeSpecialVal (v : JVal) (h : scalarNonNull v = true) :
    decodeField (encodeSpecialVal v) = some v := by
  cases v with
  | vnull => simp [scalarNonNull] at h
  | vbool b => rfl
  | vint n => rfl
  | vstr s => rfl
  | vfloat f => cases f <;> rfl
  | varr l => simp [scalarNonNull, isScalarVal] at h
  | vobj l => simp [scalarNonNull, isScalarVal] at h

theorem mapM_ok_of_ok {α β ε : Type} (f : α → Except ε β) (g : α → β)
    (l : List α) (h : ∀ a ∈ l, f a = .ok (g a)) :
    l.mapM f = .ok (l.map g) := by
  induction l with
  | nil => rfl
  | cons a rest ih =>
    rw [List.mapM_cons, h a (List.mem_cons_self a rest),
      ih (fun b hb => h b (List.mem_cons_of_mem a hb))]
    rfl

theorem rowKeys_cons (kv : String × JVal) (r : Row) :
    rowKeys (kv :: r) = kv.1 :: rowKeys r := rfl

theorem processRecordsForAt_new (records : List Row) (keepNone : Bool) :
    processRecordsForAt records keepNone true
      = .ok (.newFormat (records.map (fun r => .fieldsOnly (processRowForAt keepNone r)))) := by
  rw [processRecordsForAt,
    mapM_ok_of_ok (atRecOfRow keepNone true)
      (fun r => ATRec.fieldsOnly (processRowForAt keepNone r)) records
      (fun r _ => rfl)]
  rfl

theorem decodeFold_cons (base : Row) (kv : String × JVal) (rest : Row) :
    decodeFold base (kv :: rest)
      = decodeFold
          (match decodeField kv.2 with
           | some w => rowInsert base kv.1 w
           | none => base) rest := rfl

theorem lookupRow_decodeFold_not_mem (fs : Row) (k : String)
    (h : k ∉ rowKeys fs) :
    ∀ acc : Row, lookupRow (decodeFold acc fs) k = lookupRow acc k := by
  induction fs with
  | nil => intro acc; rfl
  | cons kv rest ih =>
    intro acc
    rw [rowKeys_cons, List.mem_cons, not_or] at h
    have hne : k ≠ kv.1 := h.1
    rw [decodeFold_cons]
    cases hd : decodeField kv.2 with
    | some w =>
      rw [ih h.2]
      exact lookupRow_rowInsert_other acc kv.1 k w hne
    | none => exact ih h.2 acc

theorem lookupRow_decodeFold (fs : Row) (k : String)
    (hn : (rowKeys fs).Nodup) :
    ∀ acc : Row, k ∉ rowKeys acc →
      lookupRow (decodeFold acc fs) k = (lookupRow fs k).bind decodeField := by
  induction fs with
  | nil =>
    intro acc hk
    exact (lookupRow_eq_none_of_not_mem acc k hk).trans rfl
  | cons kv rest ih =>
    intro acc hk
    rw [rowKeys_cons, List.nodup_cons] at hn
    by_cases hkk : kv.1 = k
    · rw [decodeFold_cons, lookupRow, if_pos hkk, Option.some_bind]
      cases hd : decodeField kv.2 with
      | some w =>
        rw [lookupRow_decodeFold_not_mem rest k (by rw [← hkk]; exact hn.1)]
        rw [← hkk]
        exact lookupRow_rowInsert_self acc kv.1 w
      | none =>
        rw [lookupRow_decodeFold_not_mem rest k (by rw [← hkk]; exact hn.1)]
        exact lookupRow_eq_none_of_not_mem acc k hk
    · rw [decodeFold_cons, lookupRow, if_neg hkk]
      cases hd : decodeField kv.2 with
      | some w =>
        apply ih hn.2
        intro hmem
        rcases rowKeys_rowInsert_mem acc kv.1 w k hmem with h1 | h1
        · exact hk h1
        · exact hkk h1.symm
      | none => exact ih hn.2 acc hk

theorem decodeFold_encode (row : Row)
    (hs : ∀ kv ∈ row, scalarNonNull kv.2 = true) :
    ∀ acc : Row, (rowKeys acc ++ rowKeys row).Nodup →
      decodeFold acc (row.map (fun kv => (kv.1, encodeSpecialVal kv.2))) = acc ++ row := by
  induction row with
  | nil => intro acc _; simp [decodeFold]
  | cons kv rest ih =>
    intro acc hn
    obtain ⟨k, v⟩ := kv
    rw [rowKeys_cons] at hn
    have hv : scalarNonNull v = true := hs (k, v) (List.mem_cons_self _ _)
    rw [List.map_cons, decodeFold_cons]
    simp only [decodeField_encodeSpecialVal v hv]
    have hfresh : k ∉ rowKeys acc := by
      intro hmem
      exact (List.nodup_append.mp hn).2.2 hmem (List.mem_cons_self k _)
    rw [rowInsert_fresh acc k v hfresh,
      ih (fun kv2 hkv2 => hs kv2 (List.mem_cons_of_mem _ hkv2)) (acc ++ [(k, v)])
        (by
          have hkeys : rowKeys (acc ++ [(k, v)]) = rowKeys acc ++ [k] := by
            rw [rowKeys_append]; rfl
          rw [hkeys, ← List.append_cons]
          exact hn),
      List.append_assoc, List.singleton_append]

/-!
## Chunking lemmas
-/

theorem pyChunks_nil {α : Type} (n : Nat) : pyChunks ([] : List α) n = [] := by
  rw [pyChunks]
  have h0 : (List.length ([] : List α) + n - 1) / n = 0 := by
    rcases Nat.eq_zero_or_pos n with h | h
    · subst h; simp
    · rw [List.length_nil, Nat.zero_add]
      exact Nat.div_eq_of_lt (by omega)
  rw [h0]
  rfl

theorem pyChunks_cons {α : Type} (n : Nat) (hn : 0 < n) (l : List α)
    (hl : l ≠ []) : pyChunks l n = l.take n :: pyChunks (l.drop n) n := by
  have hL : 1 ≤ l.length := List.length_pos.mpr hl
  rw [pyChunks, pyChunks]
  have hcount : (l.length + n - 1) / n = ((l.drop n).length + n - 1) / n + 1 := by
    rw [List.length_drop]
    rcases le_or_lt n l.length with h | h
    · have e1 : l.length + n - 1 = (l.length - n + n - 1) + n := by omega
      rw [e1, Nat.add_div_right _ hn]
    · have e1 : l.length - n = 0 := by omega
      have e2 : (0 + n - 1) / n = 0 := Nat.div_eq_of_lt (by omega)
      rw [e1, e2]
      exact Nat.div_eq_of_lt_le (by omega) (by omega)
  rw [hcount, List.range_succ_eq_map, List.map_cons]
  congr 1
  · rw [Nat.zero_mul, List.drop_zero]
  · rw [List.map_map]
    refine List.map_congr_left (fun i _ => ?_)
    show (l.drop (Nat.succ i * n)).take n = ((l.drop n).drop (i * n)).take n
    rw [List.drop_drop, Nat.succ_mul, Nat.add_comm (i * n) n]

theorem pyChunks_join_le {α : Type} (n : Nat) (hn : 0 < n) :
    ∀ N : Nat, ∀ l : List α, l.length ≤ N → (pyChunks l n).flatten = l := by
  intro N
  induction N with
  | zero =>
    intro l hlen
    have h : l = [] := List.length_eq_zero.mp (Nat.le_zero.mp hlen)
    rw [h, pyChunks_nil]
    rfl
  | succ N ihN =>
    intro l hlen
    rcases eq_or_ne l [] with h | h
    · rw [h, pyChunks_nil]; rfl
    · rw [pyChunks_cons n hn l h, List.flatten_cons,
        ihN (l.drop n) (by
          rw [List.length_drop]
          have : 0 < l.length := List.length_pos.mpr h
          omega),
        List.take_append_drop]

theorem pyChunks_join {α : Type} (n : Nat) (hn : 0 < n) (l : List α) :
    (pyChunks l n).flatten = l :=
  pyChunks_join_le n hn l.length l le_rfl

theorem pyChunks_full_le {α : Type} (n : Nat) (hn : 0 < n) :
    ∀ N : Nat, ∀ l : List α, l.length ≤ N →
      ∀ c ∈ (pyChunks l n).dropLast, c.length = n := by
  intro N
  induction N with
  | zero =>
    intro l hlen c hc
    have h : l = [] := List.length_eq_zero.mp (Nat.le_zero.mp hlen)
    rw [h, pyChunks_nil] at hc
    simp at hc
  | succ N ihN =>
    intro l hlen c hc
    rcases eq_or_ne l [] with h | h
    · rw [h, pyChunks_nil] at hc
      simp at hc
    · rw [pyChunks_cons n hn l h] at hc
      cases hr : pyChunks (l.drop n) n with
      | nil =>
        rw [hr] at hc
        simp at hc
      | cons c2 t =>
        rw [hr, List.dropLast_cons₂, List.mem_cons] at hc
        have hnle : n ≤ l.length := by
          by_contra hlt
          have hdrop : l.drop n = [] :=
            List.drop_eq_nil_of_le (by omega)
          rw [hdrop, pyChunks_nil] at hr
          exact List.noConfusion hr
        rcases hc with hc | hc
        · rw [hc, List.length_take]
          omega
        · exact ihN (l.drop n)
            (by
              rw [List.length_drop]
              have : 0 < l.length := List.length_pos.mpr h
              omega)
            c (by rw [hr]; exact hc)

theorem pyChunks_full {α : Type} (n : Nat) (hn : 0 < n) (l : List α) :
    ∀ c ∈ (pyChunks l n).dropLast, c.length = n :=
  pyChunks_full_le n hn l.length l le_rfl

/-!
## Pagination and write-loop lemmas
-/

theorem sentFor_of_truthy (v : JVal) (prev : Option JVal)
    (ht : pyTruthy v = true) :
    sentFor v prev = if isPyTrue v then prev else some v := by
  rw [sentFor, ht]
  by_cases hp : isPyTrue v = true
  · simp [hp]
  · simp [hp]

theorem getLoop_ok (fetch : Option JVal → ATResp) :
    ∀ (fuel : Nat) (off : JVal) (prev : Option JVal) (recs : List JVal)
      (tr : List (Option JVal × ATResp)) (R : List JVal)
      (T : List (Option JVal × ATResp)),
      getLoop fetch fuel off prev recs tr = .ok R T →
      (pyTruthy off = false ∧ R = recs ∧ T = tr)
      ∨ (pyTruthy off = true ∧ ∃ T2,
          T = tr ++ T2
          ∧ T2.head? = some (sentFor off prev, fetch (sentFor off prev))
          ∧ R = recs ++ (T2.map (fun p => p.2.records)).flatten
          ∧ traceChained fetch T2) := by
  intro fuel
  induction fuel with
  | zero =>
    intro off prev recs tr R T h
    simp [getLoop] at h
  | succ fuel ih =>
    intro off prev recs tr R T h
    simp only [getLoop] at h
    by_cases hoff : pyTruthy off = true
    · rw [if_pos hoff] at h
      by_cases hs : (fetch (sentFor off prev)).status = 200
      · rw [if_pos hs] at h
        rcases ih (respOffVal (fetch (sentFor off prev))) (sentFor off prev)
            (recs ++ (fetch (sentFor off prev)).records)
            (tr ++ [(sentFor off prev, fetch (sentFor off prev))]) R T h with
          ⟨hf, hR, hT⟩ | ⟨ht, T2, hT, hhead, hR, hch⟩
        · refine Or.inr ⟨hoff, [(sentFor off prev, fetch (sentFor off prev))],
            hT, rfl, by rw [hR]; simp, hf, hs⟩
        · cases T2 with
          | nil => simp at hhead
          | cons p rest =>
            obtain ⟨c2, r2⟩ := p
            have hp : c2 = sentFor (respOffVal (fetch (sentFor off prev)))
                (sentFor off prev) := by
              have := hhead
              simp at this
              exact this.1
            refine Or.inr ⟨hoff,
              (sentFor off prev, fetch (sentFor off prev)) :: (c2, r2) :: rest,
              ?_, rfl, ?_, ?_⟩
            · rw [hT, List.append_assoc, List.singleton_append]
            · rw [hR]
              simp [List.append_assoc]
            · refine ⟨ht, ?_, hs, hch⟩
              rw [hp, sentFor_of_truthy _ _ ht]
      · rw [if_neg hs] at h
        exact absurd h (by simp)
    · rw [if_neg hoff] at h
      cases h
      exact Or.inl ⟨by simpa using hoff, rfl, rfl⟩

theorem writeLoop_error {β : Type} (post : Nat → List β → HResp) :
    ∀ (chunks : List (List β)) (i0 : Nat) (recs : List JVal),
      (∃ j, j < chunks.length ∧ (post (i0 + j) (chunks.getD j [])).status ≠ 200) →
      writeLoop post chunks i0 recs
        = .error "RuntimeError: Airtable did not return 200" := by
  intro chunks
  induction chunks with
  | nil =>
    intro i0 recs h
    rcases h with ⟨j, hj, _⟩
    simp at hj
  | cons c rest ih =>
    intro i0 recs h
    rcases h with ⟨j, hj, hstat⟩
    simp only [writeLoop]
    by_cases hs : (post i0 c).status = 200
    · rw [if_pos hs]
      apply ih
      cases j with
      | zero =>
        exact absurd (by simpa using hs) (by simpa using hstat)
      | succ j1 =>
        refine ⟨j1, by simp at hj; omega, ?_⟩
        have e1 : i0 + 1 + j1 = i0 + (j1 + 1) := by omega
        rw [e1]
        simpa using hstat
    · rw [if_neg hs]

/-!
## Row-processing lookup lemmas
-/

theorem lookupRow_processRowForAt_none (row : Row) (keepNone : Bool) (k : String)
    (h : lookupRow row k = none) :
    lookupRow (processRowForAt keepNone row) k = none := by
  rw [processRowForAt]
  cases keepNone with
  | true => simp [lookupRow_map_value, h]
  | false =>
    simp only [Bool.false_eq_true, if_false]
    rw [lookupRow_map_value, lookupRow_filter_none row _ k h]
    rfl

theorem lookupRow_processRowForAt_false (row : Row) (k : String)
    (hn : (rowKeys row).Nodup) :
    lookupRow (processRowForAt false row) k
      = match lookupRow row k with
        | some .vnull => none
        | some v => some (encodeSpecialVal v)
        | none => none := by
  rw [processRowForAt]
  simp only [Bool.false_eq_true, if_false]
  rw [lookupRow_map_value, lookupRow_filter_value row (fun v => !isNull v) k hn]
  cases hv : lookupRow row k with
  | none => rfl
  | some v =>
    cases v with
    | vnull => rfl
    | vbool b => rfl
    | vint n => rfl
    | vfloat f => rfl
    | vstr s => rfl
    | varr l => rfl
    | vobj l => rfl

theorem lookupRow_processRowForAt_true (row : Row) (k : String) :
    lookupRow (processRowForAt true row) k
      = (lookupRow row k).map encodeSpecialVal := by
  rw [processRowForAt]
  simp only [if_true]
  exact lookupRow_map_value row encodeSpecialVal k

theorem isNull_eq_false_of_scalarNonNull (v : JVal) (h : scalarNonNull v = true) :
    isNull v = false := by
  cases v <;> simp_all [scalarNonNull, isNull]

theorem mapM_map_ok {α β γ ε : Type} (f : α → β) (m : β → Except ε γ) (g : α → γ)
    (l : List α) (h : ∀ a ∈ l, m (f a) = .ok (g a)) :
    (l.map f).mapM m = .ok (l.map g) := by
  induction l with
  | nil => rfl
  | cons a rest ih =>
    rw [List.map_cons, List.mapM_cons, h a (List.mem_cons_self a rest),
      ih (fun b hb => h b (List.mem_cons_of_mem a hb))]
    rfl

theorem except_map_eq_error {ε α β : Type} (f : α → β) (x : Except ε α) (e : ε) :
    x.map f = .error e ↔ x = .error e := by
  cases x <;> simp [Except.map]

/-!
## The claims
-/

/-- Claim C3 (confirmed): for every sequence `S` and the chunk size `n = 10`
used by `write`, `update` and `delete`, the chunking step partitions `S`
into contiguous order-preserving chunks: concatenating the chunks yields
`S` exactly, every chunk except possibly the last has length exactly 10,
and chunking the empty sequence yields no chunks. -/
theorem chunking_invariant {α : Type} (S : List α) :
    (pyChunks S 10).flatten = S
    ∧ (∀ c ∈ (pyChunks S 10).dropLast, c.length = 10)
    ∧ pyChunks ([] : List α) 10 = [] :=
  ⟨pyChunks_join 10 (by omega) S, pyChunks_full 10 (by omega) S, pyChunks_nil 10⟩

/-- Witness for C3 at the 15-element sequence `0, ..., 14`. -/
theorem chunking_invariant_witness :
    (pyChunks (List.range 15) 10).flatten = List.range 15
    ∧ ∀ c ∈ (pyChunks (List.range 15) 10).dropLast, c.length = 10 :=
  ⟨(chunking_invariant (List.range 15)).1, (chunking_invariant (List.range 15)).2.1⟩

/-- Claim C7 (confirmed): `toWire` with `keep_none = False` drops exactly
the `None`-valued entries of a row, and with `keep_none = True` retains
them verbatim with their `None` value (the special-value encoding touches
only non-finite floats, hence leaves `None` and every other non-float
value unchanged). -/
theorem toWire_null_handling (row : Row) (hn : (rowKeys row).Nodup) (k : String) :
    lookupRow (processRowForAt false row) k
      = (match lookupRow row k with
         | some .vnull => none
         | some v => some (encodeSpecialVal v)
         | none => none)
    ∧ lookupRow (processRowForAt true row) k
      = (lookupRow row k).map encodeSpecialVal :=
  ⟨lookupRow_processRowForAt_false row k hn, lookupRow_processRowForAt_true row k⟩

/-- Witness for C7 at the row `{"a": 1, "b": None}`: `keep_none = False`
drops `"b"`, `keep_none = True` keeps it mapped to `None`. -/
theorem toWire_null_handling_witness :
    lookupRow (processRowForAt false [("a", .vint 1), ("b", .vnull)]) "b" = none
    ∧ lookupRow (processRowForAt true [("a", .vint 1), ("b", .vnull)]) "b"
        = some .vnull := by
  have h := toWire_null_handling [("a", .vint 1), ("b", .vnull)] (by decide) "b"
  exact ⟨h.1.trans rfl, h.2.trans rfl⟩

/-- Claim C9 (confirmed): in update mode (`new = False`), a row lacking the
reserved identifier pseudo-key makes the whole `_process_records_for_at`
call fail with the `KeyError` raised by `newrow[self._at_rec_id]`; no row
is skipped and no default identifier is substituted, since the only
non-error output would be an `.ok` payload. -/
theorem toWire_missing_id_error (records : List Row) (keepNone : Bool)
    (h : ∃ r ∈ records, lookupRow r atRecId = none) :
    processRecordsForAt records keepNone false = .error "KeyError: at_record_id" := by
  induction records with
  | nil =>
    rcases h with ⟨r, hr, _⟩
    simp at hr
  | cons r0 rest ih =>
    rw [processRecordsForAt, List.mapM_cons]
    cases hl : lookupRow (processRowForAt keepNone r0) atRecId with
    | none =>
      have he : atRecOfRow keepNone false r0 = .error "KeyError: at_record_id" := by
        rw [atRecOfRow]
        simp only [Bool.false_eq_true, if_false]
        rw [hl]
      rw [he]
      rfl
    | some idv =>
      rcases h with ⟨r, hr, hnone⟩
      rcases List.mem_cons.mp hr with he | hmem
      · subst he
        exact absurd (lookupRow_processRowForAt_none r keepNone atRecId hnone)
          (by rw [hl]; simp)
      · have hrest := ih ⟨r, hmem, hnone⟩
        rw [processRecordsForAt] at hrest
        have hmapM : rest.mapM (atRecOfRow keepNone false)
            = .error "KeyError: at_record_id" :=
          (except_map_eq_error _ _ _).mp hrest
        have hok : atRecOfRow keepNone false r0
            = .ok (.withId idv ((processRowForAt keepNone r0).filter
                (fun kv => !(kv.1 = atRecId)))) := by
          rw [atRecOfRow]
          simp only [Bool.false_eq_true, if_false]
          rw [hl]
        rw [hok, hmapM]
        rfl

/-- Witness for C9: a single row without `at_record_id`. -/
theorem toWire_missing_id_error_witness :
    processRecordsForAt [[("x", .vint 1)]] false false
      = .error "KeyError: at_record_id" :=
  toWire_missing_id_error [[("x", .vint 1)]] false
    ⟨[("x", .vint 1)], List.mem_singleton.mpr rfl, rfl⟩

/-- Claim C8 (confirmed): if the HTTP collaborator answers any chunk of a
`write` call with a non-200 status, the whole call evaluates to the raised
`RuntimeError`; in particular no `.ok` value carrying the records already
written by earlier successful chunks is returned. -/
theorem write_status_failure {β : Type} (data : List β) (post : Nat → List β → HResp)
    (h : ∃ j, j < (pyChunks data 10).length
      ∧ (post j ((pyChunks data 10).getD j [])).status ≠ 200) :
    atWrite post data = .error "RuntimeError: Airtable did not return 200" := by
  rw [atWrite]
  apply writeLoop_error
  rcases h with ⟨j, hj, hstat⟩
  exact ⟨j, hj, by simpa using hstat⟩

/-- Witness for C8: a 15-record create call chunked as 10 + 5, whose second
chunk (call number 1) is answered with status 422. -/
theorem write_status_failure_witness :
    atWrite post422 (List.range 15)
      = .error "RuntimeError: Airtable did not return 200" :=
  write_status_failure (List.range 15) post422 ⟨1, by decide, by decide⟩

/-- Counterexample to C1 as stated: `None` is a scalar field value, yet a
row `{"b": None}` does not survive the round trip under the default
`keep_none = False` — the entry is dropped by `toWire` and absent from the
decoded row, although `"b"` is not the reserved identifier key and no NaN
is involved. -/
theorem roundTrip_null_cex :
    (∀ kv ∈ ([("b", JVal.vnull)] : Row), isScalarVal kv.2 = true)
    ∧ roundTrip [[("b", JVal.vnull)]] = .ok [[]]
    ∧ ¬ List.Forall₂ rowAgreesUpToId [[("b", JVal.vnull)]] [[]] := by
  refine ⟨by decide, rfl, ?_⟩
  intro hf
  cases hf with
  | cons h1 _ =>
    have h2 := h1 "b" (by decide)
    simp [lookupRow] at h2

/-- Claim C1 (corrected): the round trip `fromWire(toWire(R, new=True))`
— decoding with `keep_id = False`, since new-mode wire records carry no
identifier — reproduces `R` exactly, provided every field value is a
non-`None` scalar (the default `keep_none = False` drops `None`-valued
entries, so they do not round-trip) and the rows are genuine dicts.
NaN round-trips to NaN, which the model compares as "is NaN". -/
theorem roundTrip_scalar (records : List Row)
    (hs : ∀ r ∈ records, ∀ kv ∈ r, scalarNonNull kv.2 = true)
    (hn : ∀ r ∈ records, (rowKeys r).Nodup) :
    roundTrip records = .ok records := by
  rw [roundTrip, processRecordsForAt_new records false]
  show processRecordsFromAt
    (payloadRows (.newFormat (records.map
      (fun r => .fieldsOnly (processRowForAt false r))))) false = .ok records
  simp only [payloadRows, List.map_map]
  rw [processRecordsFromAt]
  rw [mapM_map_ok _ (fromAtRow false) id records ?ok, List.map_id]
  case ok =>
    intro r hr
    have key : decodeFold [] (processRowForAt false r) = r := by
      rw [processRowForAt]
      simp only [Bool.false_eq_true, if_false]
      rw [List.filter_eq_self.mpr
          (fun kv hkv => by
            rw [isNull_eq_false_of_scalarNonNull kv.2 (hs r hr kv hkv)]
            rfl),
        decodeFold_encode r (hs r hr) [] (by simpa using hn r hr)]
      rfl
    have hunfold : fromAtRow false
        ((atRecToRow ∘ fun r => ATRec.fieldsOnly (processRowForAt false r)) r)
        = .ok (decodeFold [] (processRowForAt false r)) := rfl
    rw [hunfold, key]
    rfl

/-- Witness for C1: a row mixing an int, a finite float, the three
non-finite floats, a string and a bool round-trips unchanged. -/
theorem roundTrip_scalar_witness :
    roundTrip [[("a", .vint 1), ("f", .vfloat (.finite (7 / 2))),
        ("n", .vfloat .nan), ("i", .vfloat .inf), ("m", .vfloat .negInf),
        ("s", .vstr "hi"), ("t", .vbool true)]]
      = .ok [[("a", .vint 1), ("f", .vfloat (.finite (7 / 2))),
        ("n", .vfloat .nan), ("i", .vfloat .inf), ("m", .vfloat .negInf),
        ("s", .vstr "hi"), ("t", .vbool true)]] :=
  roundTrip_scalar _ (by decide) (by decide)

/-- Counterexample to C2 as stated: a field tagged with a truthy but
unrecognised `"specialValue"` is dropped from the output row rather than
passed through, and an object carrying the tag alongside other keys is
still decoded to the non-finite float rather than passed through. -/
theorem fromAt_decode_cex :
    processRecordsFromAt
        [[("id", .vstr "r1"),
          ("fields", .vobj [("a", .vobj [("specialValue", .vstr "bogus")])])]] true
      = .ok [[(atRecId, .vstr "r1")]]
    ∧ decodeField (.vobj [("specialValue", .vstr "Infinity"), ("x", .vint 1)])
        = some (.vfloat .inf) :=
  ⟨rfl, rfl⟩

/-- Claim C2 (corrected): the decode step maps a field whose value is an
object with a present and truthy `"specialValue"` entry equal to one of
the three recognised tags to the corresponding non-finite float,
regardless of any other keys in the object; a truthy but unrecognised tag
drops the field from the output row; every other value — scalars and
objects without a truthy tag — passes through unchanged. -/
theorem fromAt_special_decode (fs : Row) (idv : JVal) (hn : (rowKeys fs).Nodup)
    (k : String) (hk : k ≠ atRecId) :
    ∃ out, processRecordsFromAt [[("id", idv), ("fields", .vobj fs)]] true
        = .ok [out]
      ∧ lookupRow out k = (lookupRow fs k).bind decodeField
      ∧ decodeField (.vobj [("specialValue", .vstr "Infinity")]) = some (.vfloat .inf)
      ∧ decodeField (.vobj [("specialValue", .vstr "-Infinity")]) = some (.vfloat .negInf)
      ∧ decodeField (.vobj [("specialValue", .vstr "NaN")]) = some (.vfloat .nan)
      ∧ ∀ v : JVal, (∀ o, v ≠ .vobj o) → decodeField v = some v := by
  refine ⟨decodeFold [(atRecId, idv)] fs, ?_, ?_, rfl, rfl, rfl, ?_⟩
  · have hrow : fromAtRow true [("id", idv), ("fields", .vobj fs)]
        = .ok (decodeFold [(atRecId, idv)] fs) := rfl
    rw [processRecordsFromAt, List.mapM_cons, hrow]
    rfl
  · refine lookupRow_decodeFold fs k hn [(atRecId, idv)] ?_
    intro hmem
    exact hk (by simpa [rowKeys] using hmem)
  · intro v hv
    cases v with
    | vobj o => exact absurd rfl (hv o)
    | vnull => rfl
    | vbool b => rfl
    | vint n => rfl
    | vfloat f => rfl
    | vstr s => rfl
    | varr l => rfl

/-- Witness for C2: a plain scalar field passes through the decode step. -/
theorem fromAt_special_decode_witness :
    ∃ out, processRecordsFromAt
        [[("id", .vstr "r1"), ("fields", .vobj [("a", .vint 2)])]] true = .ok [out]
      ∧ lookupRow out "a" = some (.vint 2) := by
  rcases fromAt_special_decode [("a", .vint 2)] (.vstr "r1") (by decide) "a" (by decide)
    with ⟨out, h1, h2, _⟩
  exact ⟨out, h1, h2.trans rfl⟩

/-- Counterexample to C4 as stated: a page source whose response carries an
offset field that is present but falsy (the empty string) makes the loop
terminate after one fetch, although no response omitted the offset field —
`while offset:` tests Python truthiness, not presence. -/
theorem pagination_falsy_offset_cex :
    atGet emptyOffsetPager 5 = .ok [.vint 7] [(none, emptyOffsetPager none)]
    ∧ (emptyOffsetPager none).offset ≠ none :=
  ⟨rfl, by simp [emptyOffsetPager]⟩

/-- Claim C4 (corrected): any successful run of the reading loop of `get`
sends no offset parameter on the first request; after a response with a
truthy offset it fetches again, sending that offset — except that a JSON
`true` offset is kept out of `params` by the `offset is not True` identity
guard, so the previous offset parameter is re-sent unchanged; the loop
terminates exactly when a response's offset field is absent or falsy
(absence alone, as claimed, is refuted by the counterexample); and the
result is the in-order concatenation of all pages' records. -/
theorem pagination_loop (fetch : Option JVal → ATResp) (fuel : Nat)
    (R : List JVal) (T : List (Option JVal × ATResp))
    (h : atGet fetch fuel = .ok R T) :
    T.head? = some (none, fetch none)
    ∧ R = (T.map (fun p => p.2.records)).flatten
    ∧ traceChained fetch T := by
  rcases getLoop_ok fetch fuel (.vbool true) none [] [] R T h with
    ⟨hf, _, _⟩ | ⟨_, T2, hT, hhead, hR, hch⟩
  · simp [pyTruthy] at hf
  · rw [List.nil_append] at hT
    subst hT
    have hsent : sentFor (.vbool true) none = none := rfl
    rw [hsent] at hhead
    exact ⟨hhead, by simpa using hR, hch⟩

/-- Witness for C4: the two-page mock source causes exactly two fetches and
yields the concatenation of both pages' records. -/
theorem pagination_loop_witness :
    atGet twoPager 3
      = .ok [.vint 1, .vint 2, .vint 3]
          [(none, twoPager none), (some (.vstr "off1"), twoPager (some (.vstr "off1")))]
    ∧ (([(none, twoPager none),
        (some (JVal.vstr "off1"), twoPager (some (JVal.vstr "off1")))]
          : List (Option JVal × ATResp)).length = 2)
    ∧ traceChained twoPager
        [(none, twoPager none), (some (.vstr "off1"), twoPager (some (.vstr "off1")))] :=
  ⟨rfl, rfl, (pagination_loop twoPager 3 _ _ rfl).2.2⟩

/-- Claim C5 (code_bug): with `data_wo_id = [{"uid": 1}, {"uid": 2}]`,
`data_w_id = []` and `keys = ["uid"]`, both rows have zero matches, so per
the claim both should move to `unmatched` with both key-tuples recorded;
instead, removing the first row from the list being iterated makes the
loop skip the second row entirely: it stays in the `updated` collection —
without any identifier added — and appears in neither `missing_id` nor
`not_updated`. -/
theorem matcher_skips_after_removal :
    matchAtRecId [[("uid", .vint 1)], [("uid", .vint 2)]] [] ["uid"]
      = .ok ([[("uid", .vint 2)]], [[("uid", .vint 1)]], [[("uid", .vint 1)]])
    ∧ lookupRow [("uid", JVal.vint 2)] atRecId = none :=
  ⟨rfl, rfl⟩

/-- Claim C6 (code_bug): both rows of `data_w_id` agree with the row
`{"uid": 1}` on the key set `["uid"]` (second and third conjuncts), so per
the claim the call must raise the duplicate-records error; but because the
ambiguous row directly follows a removed (unmatched) row, the iteration
skips it and the call returns normally. -/
theorem matcher_misses_duplicate :
    matchAtRecId [[("uid", .vint 0)], [("uid", .vint 1)]]
        [[("uid", .vint 1), (atRecId, .vstr "recA")],
         [("uid", .vint 1), (atRecId, .vstr "recB")]] ["uid"]
      = .ok ([[("uid", .vint 1)]], [[("uid", .vint 0)]], [[("uid", .vint 0)]])
    ∧ pyAllEq ["uid"] [("uid", .vint 1), (atRecId, .vstr "recA")] [("uid", .vint 1)]
        = .ok true
    ∧ pyAllEq ["uid"] [("uid", .vint 1), (atRecId, .vstr "recB")] [("uid", .vint 1)]
        = .ok true :=
  ⟨rfl, rfl, rfl⟩

/-- Claim C10 (confirmed): a cache-routed `get` on a client configured with
a cache token writes `X-Mw-Bearer` into the client's own header dict
(which `headers = self.__headers` aliases); the header was not there at
construction, is never removed — a later direct `get` leaves the state
unchanged — and `write`/`update`/`delete` send `self.__headers`, so every
subsequent request carries it. -/
theorem cache_header_mutation (apikey t : String) :
    lookupRow (initClient apikey (some t)).headers "X-Mw-Bearer" = none
    ∧ lookupRow ((getHeaderPrep (initClient apikey (some t)) false).1).headers
        "X-Mw-Bearer" = some (.vstr t)
    ∧ (getHeaderPrep ((getHeaderPrep (initClient apikey (some t)) false).1) true).1
        = (getHeaderPrep (initClient apikey (some t)) false).1
    ∧ lookupRow (mutationHeaders ((getHeaderPrep (initClient apikey (some t)) false).1))
        "X-Mw-Bearer" = some (.vstr t) :=
  ⟨rfl, rfl, rfl, rfl⟩

/-- A JSON `true` offset is kept out of `params` by the identity guard: the
previous offset parameter (here a stale `"x"`) is left unchanged. -/
example : sentFor (.vbool true) (some (.vstr "x")) = some (.vstr "x") := rfl

/-- A page source that keeps answering with a JSON `true` offset re-sends
the absent offset forever: the loop never terminates (for any amount of
fuel the run is still unfinished). -/
example :
    atGet (fun _ => ⟨200, [.vint 1], some (.vbool true)⟩) 7 = .outOfFuel := rfl
